import Mathlib

/-!
Shallow embedding of the remita table-chart plugin logic
(TableChart.tsx, DataTable/DataTable.tsx, ActionCell.tsx).

JavaScript values that can appear in rows, messages and persisted
selections are modelled by the inductive `Json` below (numbers are
modelled as integers; floating point is outside the scope of this
embedding).  JavaScript `Map` objects are modelled as association
lists with the insertion-order semantics of `Map`: `set` on an
existing key updates the value in place, `set` on a fresh key appends
at the end, `delete` removes the entry, and iteration follows list
order.
-/

/-- JSON-representable JavaScript values (numbers restricted to integers). -/
inductive Json where
  | null : Json
  | bool (b : Bool) : Json
  | num (n : Int) : Json
  | str (s : String) : Json
  | arr (elems : List Json) : Json
  | obj (fields : List (String × Json)) : Json

mutual

/-- Boolean structural equality on `Json` (used where the JavaScript
code compares values, e.g. `Set` membership). -/
def jsonBeq : Json → Json → Bool
  | Json.null, Json.null => true
  | Json.bool a, Json.bool b => a == b
  | Json.num a, Json.num b => a == b
  | Json.str a, Json.str b => a == b
  | Json.arr a, Json.arr b => jsonBeqList a b
  | Json.obj a, Json.obj b => jsonBeqFields a b
  | _, _ => false

def jsonBeqList : List Json → List Json → Bool
  | [], [] => true
  | x :: xs, y :: ys => jsonBeq x y && jsonBeqList xs ys
  | _, _ => false

def jsonBeqFields : List (String × Json) → List (String × Json) → Bool
  | [], [] => true
  | (k, v) :: xs, (k', v') :: ys => k == k' && jsonBeq v v' && jsonBeqFields xs ys
  | _, _ => false

end

/-- Lookup in a JavaScript Map modelled as an association list
(first matching key, matching `Map.prototype.get`). -/
def mapGet {α : Type} : List (String × α) → String → Option α
  | [], _ => none
  | (k', v) :: rest, k => if k' = k then some v else mapGet rest k

/-- `Map.prototype.set`: update the existing entry in place, otherwise
append a new entry at the end (JS Map preserves insertion order). -/
def mapSet {α : Type} : List (String × α) → String → α → List (String × α)
  | [], k, v => [(k, v)]
  | (k', v') :: rest, k, v =>
      if k' = k then (k', v) :: rest else (k', v') :: mapSet rest k v

/-- `Map.prototype.delete`: remove the entry with the given key. -/
def mapDelete {α : Type} : List (String × α) → String → List (String × α)
  | [], _ => []
  | (k', v) :: rest, k =>
      if k' = k then mapDelete rest k else (k', v) :: mapDelete rest k

/-- `Map.prototype.has`. -/
def mapHas {α : Type} (m : List (String × α)) (k : String) : Bool :=
  (mapGet m k).isSome

/-- The keys of a modelled Map, in insertion order. -/
def mapKeys {α : Type} (m : List (String × α)) : List String :=
  m.map (fun p => p.1)

theorem mapGet_mapSet_self {α : Type} (m : List (String × α)) (k : String) (v : α) :
    mapGet (mapSet m k v) k = some v := by
  induction m with
  | nil => simp [mapSet, mapGet]
  | cons p rest ih =>
    obtain ⟨k', v'⟩ := p
    by_cases h : k' = k
    · simp [mapSet, mapGet, h]
    · simp [mapSet, mapGet, h, ih]

theorem mapGet_mapSet_other {α : Type} (m : List (String × α)) (k k' : String) (v : α)
    (h : k' ≠ k) : mapGet (mapSet m k v) k' = mapGet m k' := by
  induction m with
  | nil => simp [mapSet, mapGet, Ne.symm h]
  | cons p rest ih =>
    obtain ⟨k₀, v₀⟩ := p
    by_cases h0 : k₀ = k
    · subst h0
      simp [mapSet, mapGet, Ne.symm h]
    · by_cases h1 : k₀ = k'
      · simp [mapSet, mapGet, h0, h1, h]
      · simp [mapSet, mapGet, h0, h1, ih]

theorem mapGet_mapDelete {α : Type} (m : List (String × α)) (k k' : String) :
    mapGet (mapDelete m k) k' = if k' = k then none else mapGet m k' := by
  induction m with
  | nil => simp [mapDelete, mapGet]
  | cons p rest ih =>
    obtain ⟨k₀, v₀⟩ := p
    by_cases h0 : k₀ = k
    · subst h0
      by_cases h1 : k' = k₀
      · subst h1
        simp [mapDelete, mapGet, ih]
      · simp [mapDelete, mapGet, h1, ih, Ne.symm h1]
    · by_cases h1 : k₀ = k'
      · subst h1
        simp [mapDelete, mapGet, h0]
      · simp [mapDelete, mapGet, h0, h1, ih]

theorem mapHas_iff {α : Type} (m : List (String × α)) (k : String) :
    mapHas m k = true ↔ ∃ v, mapGet m k = some v := by
  unfold mapHas
  cases h : mapGet m k <;> simp [Option.isSome]

/-! ## Event dedupe gate (TableChart.tsx, `makeEventKey` / `shouldSendMessage`) -/

/-- Lower-case hex digit, as produced by `JSON.stringify` escapes. -/
def hexDigitChar (n : Nat) : Char :=
  if n < 10 then Char.ofNat (48 + n) else Char.ofNat (87 + n)

/-- JSON string escaping for one character (quote, backslash and
control characters, as in `JSON.stringify`). -/
def escapeJsonChar (c : Char) : String :=
  if c = '"' then "\\\""
  else if c = '\\' then "\\\\"
  else if c = '\n' then "\\n"
  else if c = '\r' then "\\r"
  else if c = '\t' then "\\t"
  else if c.toNat < 32 then
    "\\u00" ++ String.singleton (hexDigitChar (c.toNat / 16)) ++
      String.singleton (hexDigitChar (c.toNat % 16))
  else String.singleton c

def escapeJsonChars : List Char → String
  | [] => ""
  | c :: cs => escapeJsonChar c ++ escapeJsonChars cs

def escapeJsonString (s : String) : String :=
  escapeJsonChars s.data

def quoteJson (s : String) : String :=
  "\"" ++ escapeJsonString s ++ "\""

mutual

/-- `JSON.stringify` on the modelled value universe.  Object fields are
serialized in their stored (insertion) order, exactly as the JavaScript
builtin does. -/
def jsonStringify : Json → String
  | Json.null => "null"
  | Json.bool b => if b then "true" else "false"
  | Json.num n => toString n
  | Json.str s => quoteJson s
  | Json.arr l => "[" ++ jsonStringifyList l ++ "]"
  | Json.obj fs => "\x7b" ++ jsonStringifyFields fs ++ "\x7d"

def jsonStringifyList : List Json → String
  | [] => ""
  | [x] => jsonStringify x
  | x :: y :: xs => jsonStringify x ++ "," ++ jsonStringifyList (y :: xs)

def jsonStringifyFields : List (String × Json) → String
  | [] => ""
  | [(k, v)] => quoteJson k ++ ":" ++ jsonStringify v
  | (k, v) :: f :: fs =>
      quoteJson k ++ ":" ++ jsonStringify v ++ "," ++ jsonStringifyFields (f :: fs)

end

/-- An outbound message.  The four stable fields are modelled
explicitly; `origin` and `rest` stand for all remaining properties of
the message object. -/
structure RMsg where
  action : Json
  chartId : Json
  actionType : Json
  values : Json
  origin : Json
  rest : List (String × Json)

/-- `makeEventKey` (TableChart.tsx): fingerprint of a message, the
`JSON.stringify` of the object literal built from the four fields
`action`, `chartId`, `actionType`, `values` in that order. -/
def makeEventKey (msg : RMsg) : String :=
  jsonStringify (Json.obj
    [("action", msg.action), ("chartId", msg.chartId),
     ("actionType", msg.actionType), ("values", msg.values)])

/-- `DEDUPE_TTL_MS` (TableChart.tsx): the configured TTL when dedupe is
enabled, otherwise 0. -/
def DEDUPE_TTL_MS (dedupeEnabled : Bool) (cfgTtl : Int) : Int :=
  if dedupeEnabled then cfgTtl else 0

/-- `shouldSendMessage` (TableChart.tsx lines 330-347).  State is the
`recentEventsRef` map from fingerprint to last-delivered timestamp;
`now` is `Date.now()`.  Returns the decision and the updated map. -/
def shouldSendMessage (dedupeEnabled : Bool) (cfgTtl : Int) (msg : RMsg) (now : Nat)
    (recentEvents : List (String × Nat)) : Bool × List (String × Nat) :=
  if dedupeEnabled = false ∨ DEDUPE_TTL_MS dedupeEnabled cfgTtl ≤ 0 then
    (true, recentEvents)
  else
    let ttl := DEDUPE_TTL_MS dedupeEnabled cfgTtl
    let key := makeEventKey msg
    let last : Nat := (mapGet recentEvents key).getD 0
    if (now : Int) - (last : Int) < ttl then (false, recentEvents)
    else
      let updated := mapSet recentEvents key now
      let cleaned :=
        if updated.length > 200 then
          updated.filter (fun p => ¬((p.2 : Int) < (now : Int) - ttl))
        else updated
      (true, cleaned)

/-- If the first entry for a key survives a filter, lookup in the
filtered map still finds it. -/
theorem mapGet_filter_of_keep {α : Type} (m : List (String × α)) (k : String) (v : α)
    (pred : String × α → Bool) (h : mapGet m k = some v) (hkeep : pred (k, v) = true) :
    mapGet (m.filter pred) k = some v := by
  induction m with
  | nil => simp [mapGet] at h
  | cons p rest ih =>
    obtain ⟨k₀, v₀⟩ := p
    by_cases h0 : k₀ = k
    · subst h0
      simp [mapGet] at h
      subst h
      simp [List.filter, hkeep, mapGet]
    · simp [mapGet, h0] at h
      by_cases hp : pred (k₀, v₀) = true
      · simp [List.filter, hp, mapGet, h0]
        exact ih h
      · simp [List.filter, hp]
        exact ih h

/-- C1 (amended): behavior of the dedupe gate.  If dedupe is disabled
or the effective TTL is not positive the gate always passes and leaves
the map unchanged.  Otherwise, with `last` the stored timestamp of the
fingerprint (absent entries are treated as timestamp 0 by the
`|| 0` default in the source): within TTL the message is suppressed and
the map is unchanged; at or past TTL it is delivered and the current
time is recorded for the fingerprint. -/
theorem shouldSendMessage_spec (e : Bool) (c : Int) (msg : RMsg) (now : Nat)
    (st : List (String × Nat)) :
    (e = false ∨ DEDUPE_TTL_MS e c ≤ 0 →
        shouldSendMessage e c msg now st = (true, st)) ∧
    (e = true → 0 < DEDUPE_TTL_MS e c →
      (∀ t, mapGet st (makeEventKey msg) = some t →
          (now : Int) - (t : Int) < DEDUPE_TTL_MS e c →
          shouldSendMessage e c msg now st = (false, st)) ∧
      (∀ t, mapGet st (makeEventKey msg) = some t →
          DEDUPE_TTL_MS e c ≤ (now : Int) - (t : Int) →
          (shouldSendMessage e c msg now st).1 = true ∧
          mapGet (shouldSendMessage e c msg now st).2 (makeEventKey msg) = some now) ∧
      (mapGet st (makeEventKey msg) = none → (now : Int) < DEDUPE_TTL_MS e c →
          shouldSendMessage e c msg now st = (false, st)) ∧
      (mapGet st (makeEventKey msg) = none → DEDUPE_TTL_MS e c ≤ (now : Int) →
          (shouldSendMessage e c msg now st).1 = true ∧
          mapGet (shouldSendMessage e c msg now st).2 (makeEventKey msg) = some now)) := by
  constructor
  · intro h
    unfold shouldSendMessage
    rw [if_pos h]
  · intro he h0
    subst he
    have hcond : ¬(true = false ∨ DEDUPE_TTL_MS true c ≤ 0) := by
      push_neg
      exact ⟨by decide, h0⟩
    have hdeliver : ∀ t : Nat, mapGet st (makeEventKey msg) = some t →
        DEDUPE_TTL_MS true c ≤ (now : Int) - (t : Int) →
        (shouldSendMessage true c msg now st).1 = true ∧
        mapGet (shouldSendMessage true c msg now st).2 (makeEventKey msg) = some now := by
      intro t ht hge
      have hnotlt : ¬((now : Int) - (((mapGet st (makeEventKey msg)).getD 0 : Nat) : Int)
          < DEDUPE_TTL_MS true c) := by
        rw [ht]
        simp only [Option.getD]
        exact not_lt.mpr hge
      unfold shouldSendMessage
      rw [if_neg hcond]
      simp only
      rw [if_neg hnotlt]
      constructor
      · rfl
      · simp only
        by_cases hlen : (mapSet st (makeEventKey msg) now).length > 200
        · rw [if_pos hlen]
          apply mapGet_filter_of_keep _ _ _ _ (mapGet_mapSet_self st (makeEventKey msg) now)
          simp only [decide_eq_true_eq]
          omega
        · rw [if_neg hlen]
          exact mapGet_mapSet_self st (makeEventKey msg) now
    have hsuppress : ∀ last : Nat,
        (mapGet st (makeEventKey msg)).getD 0 = last →
        (now : Int) - (last : Int) < DEDUPE_TTL_MS true c →
        shouldSendMessage true c msg now st = (false, st) := by
      intro last hl hlt
      unfold shouldSendMessage
      rw [if_neg hcond]
      simp only
      rw [hl, if_pos hlt]
    refine ⟨?_, hdeliver, ?_, ?_⟩
    · intro t ht hlt
      exact hsuppress t (by rw [ht]; rfl) hlt
    · intro hnone hlt
      refine hsuppress 0 (by rw [hnone]; rfl) ?_
      simpa using hlt
    · intro hnone hge
      have ht0 : mapGet st (makeEventKey msg) = some 0 ∨
          (mapGet st (makeEventKey msg)).getD 0 = 0 := Or.inr (by rw [hnone]; rfl)
      have hnotlt : ¬((now : Int) - (((mapGet st (makeEventKey msg)).getD 0 : Nat) : Int)
          < DEDUPE_TTL_MS true c) := by
        rw [hnone]
        simpa using hge
      unfold shouldSendMessage
      rw [if_neg hcond]
      simp only
      rw [if_neg hnotlt]
      constructor
      · rfl
      · simp only
        by_cases hlen : (mapSet st (makeEventKey msg) now).length > 200
        · rw [if_pos hlen]
          apply mapGet_filter_of_keep _ _ _ _ (mapGet_mapSet_self st (makeEventKey msg) now)
          simp only [decide_eq_true_eq]
          omega
        · rw [if_neg hlen]
          exact mapGet_mapSet_self st (makeEventKey msg) now

/-- A concrete outbound message (the scenario message from the spec). -/
def c1Msg : RMsg :=
  { action := Json.str "bulk-action", chartId := Json.num 1,
    actionType := Json.str "approve",
    values := Json.arr [Json.obj [("id", Json.num 1)]],
    origin := Json.str "bulk", rest := [] }

/-- C1 counterexample: with dedupe enabled, TTL = 10 and current time 5,
a message whose fingerprint has never been sent (empty map, so no stored
timestamp) is suppressed, because the source treats a missing entry as
last-sent time 0 via the `|| 0` default; the claim says it should be
delivered. -/
theorem shouldSendMessage_never_sent_counterexample :
    mapGet ([] : List (String × Nat)) (makeEventKey c1Msg) = none ∧
    (shouldSendMessage true 10 c1Msg 5 []).1 = false := by
  constructor
  · rfl
  · rfl

/-- Witness for `shouldSendMessage_spec` at concrete inputs: with
TTL = 1000 and the fingerprint recorded at time 0, the same message is
suppressed at time 500 and delivered at time 1100 (spec scenario). -/
theorem shouldSendMessage_spec_witness :
    shouldSendMessage true 1000 c1Msg 500 [(makeEventKey c1Msg, 0)] =
      (false, [(makeEventKey c1Msg, 0)]) ∧
    (shouldSendMessage true 1000 c1Msg 1100 [(makeEventKey c1Msg, 0)]).1 = true := by
  constructor
  · exact ((shouldSendMessage_spec true 1000 c1Msg 500
      [(makeEventKey c1Msg, 0)]).2 rfl (by decide)).1 0 (by simp [mapGet]) (by decide)
  · exact (((shouldSendMessage_spec true 1000 c1Msg 1100
      [(makeEventKey c1Msg, 0)]).2 rfl (by decide)).2.1 0 (by simp [mapGet]) (by decide)).1

/-! ## Fingerprint stability (C8, `makeEventKey`) -/

/-- Code-unit comparison of strings (the deterministic key order used
for canonicalizing object fields). -/
def charListLe : List Char → List Char → Bool
  | [], _ => true
  | _ :: _, [] => false
  | a :: as, b :: bs =>
      if a.toNat < b.toNat then true
      else if b.toNat < a.toNat then false
      else charListLe as bs

def strLe (a b : String) : Bool :=
  charListLe a.data b.data

/-- Insert an object field into a key-sorted field list. -/
def insertFieldByKey (p : String × Json) : List (String × Json) → List (String × Json)
  | [] => [p]
  | q :: rest => if strLe p.1 q.1 then p :: q :: rest else q :: insertFieldByKey p rest

/-- Sort object fields by key (insertion sort). -/
def sortFieldsByKey (l : List (String × Json)) : List (String × Json) :=
  l.foldr insertFieldByKey []

mutual

/-- Canonical form of a JSON value: object fields sorted by key at every
level.  Two values are structurally equal regardless of property order
exactly when their canonical forms coincide. -/
def normJson : Json → Json
  | Json.null => Json.null
  | Json.bool b => Json.bool b
  | Json.num n => Json.num n
  | Json.str s => Json.str s
  | Json.arr l => Json.arr (normJsonList l)
  | Json.obj fs => Json.obj (sortFieldsByKey (normJsonFields fs))

def normJsonList : List Json → List Json
  | [] => []
  | x :: xs => normJson x :: normJsonList xs

def normJsonFields : List (String × Json) → List (String × Json)
  | [] => []
  | (k, v) :: fs => (k, normJson v) :: normJsonFields fs

end

/-- Structural equality of JSON values irrespective of the order in
which object properties appear (the notion of equality used by the
claim about fingerprints). -/
def jsonStructEq (a b : Json) : Bool :=
  jsonBeq (normJson a) (normJson b)

/-- C8 (amended, the part that holds): the fingerprint depends only on
the four fields `action`, `chartId`, `actionType`, `values` as they are
stored; messages agreeing on those four fields get the same fingerprint
whatever their `origin` or any other property. -/
theorem makeEventKey_depends_only_on_stable_fields
    (a c t v o o' : Json) (r r' : List (String × Json)) :
    makeEventKey ⟨a, c, t, v, o, r⟩ = makeEventKey ⟨a, c, t, v, o', r'⟩ := rfl

/-- First message of the C8 counterexample. -/
def c8Msg1 : RMsg :=
  { action := Json.str "bulk-action", chartId := Json.num 1,
    actionType := Json.str "approve",
    values := Json.arr [Json.obj [("a", Json.num 1), ("b", Json.num 2)]],
    origin := Json.str "bulk", rest := [] }

/-- Second message: same four stable fields up to object-property
order inside `values`, different `origin`. -/
def c8Msg2 : RMsg :=
  { action := Json.str "bulk-action", chartId := Json.num 1,
    actionType := Json.str "approve",
    values := Json.arr [Json.obj [("b", Json.num 2), ("a", Json.num 1)]],
    origin := Json.str "row", rest := [] }

/-- C8 counterexample: the two messages have structurally equal
`values` (same properties, different order) and identical other stable
fields, yet `JSON.stringify` serializes properties in insertion order,
so the fingerprints differ. -/
theorem makeEventKey_order_counterexample :
    c8Msg1.action = c8Msg2.action ∧
    c8Msg1.chartId = c8Msg2.chartId ∧
    c8Msg1.actionType = c8Msg2.actionType ∧
    jsonStructEq c8Msg1.values c8Msg2.values = true ∧
    makeEventKey c8Msg1 ≠ makeEventKey c8Msg2 := by
  refine ⟨rfl, rfl, rfl, by decide, by decide⟩

/-! ## Server pagination reconciliation (DataTable.tsx lines 563-593) -/

/-- The `serverPaginationData` ownState object (fields may be absent). -/
structure ServerPaginationData where
  pageSize : Option Nat
  currentPage : Option Nat

/-- `Math.ceil(rowCount / pageSize)` followed by the source's
`Number.isFinite` guard: with `pageSize = 0` the JavaScript quotient is
Infinity or NaN, which the guard maps to 0. -/
def pageCountOf (rowCount pageSize : Nat) : Nat :=
  if pageSize = 0 then 0 else (rowCount + pageSize - 1) / pageSize

/-- The three rendered pagination values computed by the server branch. -/
structure ServerPageResult where
  resultPageCount : Nat
  resultCurrentPageSize : Nat
  resultCurrentPage : Nat

/-- The `if (serverPagination)` block of DataTable.tsx: page count from
`Math.ceil(rowCount / serverPageSize)` (0 when not finite), current
page size with fallback to the largest allowed option, and the current
page taken from `serverPaginationData?.currentPage ?? 0` unchanged. -/
def serverPaginationResult (spd : ServerPaginationData)
    (initialPageSize rowCount : Nat) (pageSizeOptions : List Nat) : ServerPageResult :=
  let serverPageSize := spd.pageSize.getD initialPageSize
  let resultPageCount := pageCountOf rowCount serverPageSize
  let resultCurrentPageSize :=
    if pageSizeOptions.contains serverPageSize then serverPageSize
    else
      match pageSizeOptions.getLast? with
      | some fallback => fallback
      | none => serverPageSize
  let resultCurrentPage := spd.currentPage.getD 0
  ⟨resultPageCount, resultCurrentPageSize, resultCurrentPage⟩

/-- C2 (amended): the rendered page count is exactly
`ceil(rowCount / pageSize)` — zero when the quotient is not finite
(page size 0), and otherwise the least `c` with `rowCount ≤ pageSize * c`
— while the rendered current page is the requested
`serverPaginationData.currentPage` (default 0) passed through with no
clamping against the page count. -/
theorem serverPaginationResult_spec (spd : ServerPaginationData)
    (initialPageSize rowCount : Nat) (opts : List Nat) :
    (spd.pageSize.getD initialPageSize = 0 →
      (serverPaginationResult spd initialPageSize rowCount opts).resultPageCount = 0) ∧
    (∀ ps, spd.pageSize.getD initialPageSize = ps → 0 < ps →
      rowCount ≤ ps * (serverPaginationResult spd initialPageSize rowCount opts).resultPageCount ∧
      (∀ c, rowCount ≤ ps * c →
        (serverPaginationResult spd initialPageSize rowCount opts).resultPageCount ≤ c)) ∧
    (serverPaginationResult spd initialPageSize rowCount opts).resultCurrentPage =
      spd.currentPage.getD 0 := by
  refine ⟨?_, ?_, rfl⟩
  · intro h
    simp [serverPaginationResult, pageCountOf, h]
  · intro ps hps hpos
    have hne : ps ≠ 0 := Nat.pos_iff_ne_zero.mp hpos
    have hcount : (serverPaginationResult spd initialPageSize rowCount opts).resultPageCount
        = rowCount ⌈/⌉ ps := by
      simp [serverPaginationResult, pageCountOf, hps, hne, Nat.ceilDiv_eq_add_pred_div]
    rw [hcount]
    constructor
    · have h := le_smul_ceilDiv (b := rowCount) hpos
      simpa [smul_eq_mul] using h
    · intro c hc
      have h := (ceilDiv_le_iff_le_smul (b := rowCount) (c := c) hpos).mpr
      exact h (by simpa [smul_eq_mul] using hc)

/-- The requested server state of the C2 counterexample: page size 10,
requested page index 5. -/
def c2Spd : ServerPaginationData := { pageSize := some 10, currentPage := some 5 }

/-- C2 counterexample: with 10 total rows and page size 10 the page
count is 1, yet the rendered current page is the requested page 5 —
`currentPage * pageSize < totalRowCount` fails and a page at or beyond
the page count is rendered as-is (no clamping). -/
theorem serverPagination_no_clamp_counterexample :
    0 < 10 ∧
    (serverPaginationResult c2Spd 10 10 [10]).resultPageCount = 1 ∧
    (serverPaginationResult c2Spd 10 10 [10]).resultCurrentPage = 5 ∧
    ¬(5 * 10 < 10) := by
  refine ⟨by decide, rfl, rfl, by decide⟩

/-- Witness for `serverPaginationResult_spec` at concrete inputs:
25 rows with page size 10 give a page count that covers all rows and is
at most 3. -/
theorem serverPaginationResult_spec_witness :
    25 ≤ 10 * (serverPaginationResult c2Spd 10 25 [10]).resultPageCount ∧
    (serverPaginationResult c2Spd 10 25 [10]).resultPageCount ≤ 3 := by
  constructor
  · exact ((serverPaginationResult_spec c2Spd 10 25 [10]).2.1 10 rfl (by decide)).1
  · exact ((serverPaginationResult_spec c2Spd 10 25 [10]).2.1 10 rfl (by decide)).2 3 (by decide)

/-! ## Selection store (TableChart.tsx, `handleRowSelect` / `handleBulkSelect`) -/

mutual

/-- JavaScript `String(v)` on the modelled values: `"null"` for null,
decimal for numbers, the string itself, comma-joined elements for
arrays (null elements become empty), `"[object Object]"` for objects. -/
def jsonToStr : Json → String
  | Json.null => "null"
  | Json.bool b => if b then "true" else "false"
  | Json.num n => toString n
  | Json.str s => s
  | Json.arr l => jsonToStrList l
  | Json.obj _ => "[object Object]"

def jsonToStrList : List Json → String
  | [] => ""
  | [Json.null] => ""
  | [x] => jsonToStr x
  | Json.null :: y :: xs => "," ++ jsonToStrList (y :: xs)
  | x :: y :: xs => jsonToStr x ++ "," ++ jsonToStrList (y :: xs)

end

/-- A data row: an object from the query result. -/
abbrev RRow := List (String × Json)

/-- The selection state: JS `Map` from row id to row snapshot. -/
abbrev RSelection := List (String × RRow)

/-- `String(row[idColumn])`: the row id used throughout the selection
logic; a missing column gives `String(undefined) = "undefined"`. -/
def rowIdOf (idCol : String) (row : RRow) : String :=
  match mapGet row idCol with
  | some v => jsonToStr v
  | none => "undefined"

/-- `Array.prototype.indexOf` over a string array: index or -1. -/
def jsIndexOf (l : List String) (x : String) : Int :=
  match l.findIdx? (fun y => y = x) with
  | some i => (i : Int)
  | none => -1

/-- Truthiness of `lastSelectedRow.current` (`string | null`):
non-null and non-empty. -/
def lastTruthy : Option String → Bool
  | none => false
  | some s => s != ""

/-- `handleRowSelect` (TableChart.tsx lines 464-500).  Selection is
updated from `prev`; `lastSelectedRow` is the shift anchor ref.
Returns the new selection and the new anchor. -/
def handleRowSelect (selection_mode idCol : String) (data : List RRow)
    (prev : RSelection) (lastSelectedRow : Option String)
    (rowId : String) (shiftKey : Bool) : RSelection × Option String :=
  match data.find? (fun row => rowIdOf idCol row = rowId) with
  | none => (prev, lastSelectedRow)
  | some rowData =>
    if selection_mode = "single" then
      (mapSet [] rowId rowData, lastSelectedRow)
    else if shiftKey = true ∧ lastTruthy lastSelectedRow = true then
      let visibleIds := data.map (rowIdOf idCol)
      let startIdx := jsIndexOf visibleIds (lastSelectedRow.getD "")
      let endIdx := jsIndexOf visibleIds rowId
      if startIdx > -1 ∧ endIdx > -1 then
        let lo := (min startIdx endIdx).toNat
        let hi := (max startIdx endIdx).toNat
        (((data.drop lo).take (hi + 1 - lo)).foldl
            (fun acc row => mapSet acc (rowIdOf idCol row) row) prev,
         lastSelectedRow)
      else (prev, lastSelectedRow)
    else
      if mapHas prev rowId then (mapDelete prev rowId, some rowId)
      else (mapSet prev rowId rowData, some rowId)

/-- `handleBulkSelect` (TableChart.tsx lines 624-648): toggle-all over
the visible page. -/
def handleBulkSelect (idCol : String) (visibleData : List RRow)
    (prev : RSelection) : RSelection :=
  let visibleIds := visibleData.map (rowIdOf idCol)
  if visibleIds.length > 0 ∧ (∀ i ∈ visibleIds, mapHas prev i = true) then
    visibleIds.foldl mapDelete prev
  else
    visibleData.foldl (fun acc row => mapSet acc (rowIdOf idCol row) row) prev

/-- Folding `set` over rows leaves keys outside the rows' ids unchanged. -/
theorem mapGet_foldl_set_not_mem {α : Type} (rows : List α) (f : α → String)
    (m : List (String × α)) (k : String) (h : k ∉ rows.map f) :
    mapGet (rows.foldl (fun acc r => mapSet acc (f r) r) m) k = mapGet m k := by
  induction rows generalizing m with
  | nil => rfl
  | cons r rest ih =>
    simp only [List.map_cons, List.mem_cons, not_or] at h
    simp only [List.foldl_cons]
    rw [ih (mapSet m (f r) r) h.2]
    exact mapGet_mapSet_other m (f r) k r h.1

/-- With pairwise distinct ids, folding `set` over rows realizes lookup
as `find?` over the rows, falling back to the previous map. -/
theorem mapGet_foldl_set_eq_find {α : Type} (rows : List α) (f : α → String)
    (m : List (String × α)) (k : String) (hnd : (rows.map f).Nodup) :
    mapGet (rows.foldl (fun acc r => mapSet acc (f r) r) m) k =
      (rows.find? (fun r => f r = k)).or (mapGet m k) := by
  induction rows generalizing m with
  | nil => rfl
  | cons r rest ih =>
    simp only [List.map_cons, List.nodup_cons] at hnd
    simp only [List.foldl_cons, List.find?]
    by_cases hk : f r = k
    · subst hk
      rw [show (decide (f r = f r)) = true from by simp]
      rw [show ((some r).or (mapGet m (f r))) = some r from rfl]
      rw [mapGet_foldl_set_not_mem rest f _ (f r) hnd.1]
      exact mapGet_mapSet_self m (f r) r
    · rw [show (decide (f r = k)) = false from by simp [hk]]
      rw [ih (mapSet m (f r) r) hnd.2]
      cases hfind : rest.find? (fun r' => f r' = k) with
      | some r' => rfl
      | none =>
        show mapGet (mapSet m (f r) r) k = mapGet m k
        exact mapGet_mapSet_other m (f r) k r (Ne.symm hk)

/-- Every processed row's id is present after folding `set`. -/
theorem mapHas_foldl_set_of_mem {α : Type} (rows : List α) (f : α → String)
    (m : List (String × α)) :
    ∀ r ∈ rows, mapHas (rows.foldl (fun acc r => mapSet acc (f r) r) m) (f r) = true := by
  induction rows generalizing m with
  | nil => intro r hr; cases hr
  | cons r₀ rest ih =>
    intro r hr
    simp only [List.foldl_cons]
    rcases List.mem_cons.mp hr with h0 | h0
    · subst h0
      by_cases hmem : f r ∈ rest.map f
      · obtain ⟨r', hr', hfr⟩ := List.mem_map.mp hmem
        have h' := ih (mapSet m (f r) r) r' hr'
        rwa [hfr] at h'
      · unfold mapHas
        rw [mapGet_foldl_set_not_mem rest f _ (f r) hmem,
            mapGet_mapSet_self m (f r) r]
        rfl
    · exact ih (mapSet m (f r₀) r₀) r h0

/-- `delete` as a filter. -/
theorem mapDelete_eq_filter {α : Type} (m : List (String × α)) (k : String) :
    mapDelete m k = m.filter (fun p => decide (p.1 ≠ k)) := by
  induction m with
  | nil => rfl
  | cons p rest ih =>
    obtain ⟨k₀, v₀⟩ := p
    by_cases h : k₀ = k
    · simp [mapDelete, List.filter, h, ih]
    · simp [mapDelete, List.filter, h, ih]

/-- Folding `delete` over a list of keys filters out all of them. -/
theorem foldl_mapDelete_eq_filter {α : Type} (ks : List String) (m : List (String × α)) :
    ks.foldl mapDelete m = m.filter (fun p => decide (p.1 ∉ ks)) := by
  induction ks generalizing m with
  | nil => simp
  | cons k rest ih =>
    simp only [List.foldl_cons]
    rw [ih (mapDelete m k), mapDelete_eq_filter, List.filter_filter]
    congr 1
    funext p
    by_cases h1 : p.1 = k <;> by_cases h2 : p.1 ∈ rest <;> simp [h1, h2]

/-- Lookup after folding `delete`. -/
theorem mapGet_foldl_mapDelete {α : Type} (ks : List String) (m : List (String × α))
    (k : String) :
    mapGet (ks.foldl mapDelete m) k = if k ∈ ks then none else mapGet m k := by
  induction ks generalizing m with
  | nil => simp
  | cons k₀ rest ih =>
    simp only [List.foldl_cons]
    rw [ih (mapDelete m k₀)]
    by_cases h : k ∈ rest
    · simp [h, List.mem_cons]
    · by_cases h0 : k = k₀
      · subst h0
        simp [h, mapGet_mapDelete]
      · simp [h, h0, mapGet_mapDelete]

/-- An entry of the map makes `has` true. -/
theorem mapHas_of_mem {α : Type} (m : List (String × α)) (p : String × α) (hp : p ∈ m) :
    mapHas m p.1 = true := by
  induction m with
  | nil => cases hp
  | cons q rest ih =>
    obtain ⟨k₀, v₀⟩ := q
    rcases List.mem_cons.mp hp with h | h
    · subst h
      simp [mapHas, mapGet]
    · by_cases hk : k₀ = p.1
      · simp [mapHas, mapGet, hk]
      · simpa [mapHas, mapGet, hk] using ih h

/-- Setting an absent key appends the entry. -/
theorem mapSet_append_of_not_has {α : Type} (m : List (String × α)) (k : String) (v : α)
    (h : mapHas m k = false) : mapSet m k v = m ++ [(k, v)] := by
  induction m with
  | nil => rfl
  | cons p rest ih =>
    obtain ⟨k₀, v₀⟩ := p
    by_cases hk : k₀ = k
    · simp [mapHas, mapGet, hk] at h
    · simp only [mapHas, mapGet] at h
      rw [if_neg hk] at h
      simp [mapSet, hk, ih h]

/-- Setting a key absent from a prefix only touches the suffix. -/
theorem mapSet_append_right {α : Type} (m e : List (String × α)) (k : String) (v : α)
    (h : mapHas m k = false) : mapSet (m ++ e) k v = m ++ mapSet e k v := by
  induction m with
  | nil => rfl
  | cons p rest ih =>
    obtain ⟨k₀, v₀⟩ := p
    by_cases hk : k₀ = k
    · simp [mapHas, mapGet, hk] at h
    · simp only [mapHas, mapGet] at h
      rw [if_neg hk] at h
      simp [mapSet, hk, ih h]

/-- Keys of `mapSet e k v` come from `e` or are `k`. -/
theorem mapSet_keys_subset {α : Type} (e : List (String × α)) (k : String) (v : α)
    (p : String × α) (hp : p ∈ mapSet e k v) :
    p.1 ∈ e.map Prod.fst ∨ p.1 = k := by
  induction e with
  | nil =>
    simp [mapSet] at hp
    subst hp
    right
    rfl
  | cons q rest ih =>
    obtain ⟨k₀, v₀⟩ := q
    by_cases hk : k₀ = k
    · simp only [mapSet, if_pos hk] at hp
      rcases List.mem_cons.mp hp with h | h
      · right
        rw [h]
        exact hk
      · left
        simp only [List.map_cons, List.mem_cons]
        exact Or.inr (List.mem_map_of_mem Prod.fst h)
    · simp only [mapSet, if_neg hk] at hp
      rcases List.mem_cons.mp hp with h | h
      · left
        simp [h]
      · rcases ih h with h' | h'
        · left
          simp only [List.map_cons, List.mem_cons]
          exact Or.inr h'
        · right
          exact h'

/-- Folding `set` over rows whose ids are all absent from the prefix
`m` keeps `m` as a prefix and only grows a suffix whose keys come from
the initial suffix or from the rows' ids. -/
theorem foldl_mapSet_append {α : Type} (rows : List α) (f : α → String)
    (m e : List (String × α)) (h : ∀ r ∈ rows, mapHas m (f r) = false) :
    ∃ e', rows.foldl (fun acc r => mapSet acc (f r) r) (m ++ e) = m ++ e' ∧
      ∀ p ∈ e', p.1 ∈ e.map Prod.fst ∨ p.1 ∈ rows.map f := by
  induction rows generalizing e with
  | nil =>
    refine ⟨e, rfl, ?_⟩
    intro p hp
    exact Or.inl (List.mem_map_of_mem Prod.fst hp)
  | cons r rest ih =>
    simp only [List.foldl_cons]
    rw [mapSet_append_right m e (f r) r (h r (List.mem_cons_self r rest))]
    obtain ⟨e', he', hkeys⟩ := ih (mapSet e (f r) r)
      (fun r' hr' => h r' (List.mem_cons_of_mem r hr'))
    refine ⟨e', he', ?_⟩
    intro p hp
    rcases hkeys p hp with hk | hk
    · obtain ⟨q, hq, hq1⟩ := List.mem_map.mp hk
      rcases mapSet_keys_subset e (f r) r q hq with h' | h'
      · left
        rw [← hq1]
        exact h'
      · right
        rw [← hq1, h']
        simp
    · right
      simp only [List.map_cons, List.mem_cons]
      exact Or.inr hk

/-- `indexOf` misses exactly the absent elements. -/
theorem jsIndexOf_of_not_mem (l : List String) (x : String) (h : x ∉ l) :
    jsIndexOf l x = -1 := by
  unfold jsIndexOf
  rw [List.findIdx?_eq_none_iff.mpr]
  intro y hy
  simp only [decide_eq_false_iff_not]
  intro he
  exact h (he ▸ hy)

/-- A non-negative `indexOf` result means membership. -/
theorem mem_of_jsIndexOf_eq_ofNat (l : List String) (x : String) (i : Nat)
    (h : jsIndexOf l x = (i : Int)) : x ∈ l := by
  by_contra hm
  rw [jsIndexOf_of_not_mem l x hm] at h
  omega

/-- When the clicked id matches no row of the dataset, `handleRowSelect`
changes nothing (shared helper). -/
theorem handleRowSelect_of_find_none (mode idCol : String) (data : List RRow)
    (prev : RSelection) (lastSel : Option String) (rowId : String) (shift : Bool)
    (hfind : data.find? (fun row => rowIdOf idCol row = rowId) = none) :
    handleRowSelect mode idCol data prev lastSel rowId shift = (prev, lastSel) := by
  simp [handleRowSelect, hfind]

/-- C10: selecting a row id for which no row of the current dataset has
a matching id-column value leaves the selection and the anchor
unchanged, in single mode as in any other mode. -/
theorem handleRowSelect_unknown_id_noop (mode idCol : String) (data : List RRow)
    (prev : RSelection) (lastSel : Option String) (rowId : String) (shift : Bool)
    (h : ∀ r ∈ data, rowIdOf idCol r ≠ rowId) :
    handleRowSelect mode idCol data prev lastSel rowId shift = (prev, lastSel) := by
  apply handleRowSelect_of_find_none
  rw [List.find?_eq_none]
  intro r hr
  simpa using h r hr

/-- Concrete rows for witnesses and counterexamples. -/
def rowA : RRow := [("id", Json.str "a")]

def rowB : RRow := [("id", Json.str "b")]

def rowC : RRow := [("id", Json.str "c")]

/-- Witness for `handleRowSelect_unknown_id_noop`: selecting the
unknown id "zzz" in single mode does not clear the existing
selection. -/
theorem handleRowSelect_unknown_id_noop_witness :
    handleRowSelect "single" "id" [rowA] [("b", rowB)] (some "b") "zzz" false
      = ([("b", rowB)], some "b") :=
  handleRowSelect_unknown_id_noop "single" "id" [rowA] [("b", rowB)] (some "b") "zzz" false
    (by decide)

/-- C3: in multiple mode, a shift-click with a recorded anchor either
(a) does nothing when the target id matches no visible row, (b) does
nothing when the anchor id is not among the visible ids, or (c) when
both endpoints are found at indices `i` and `j` of the visible window,
overlays the previous selection with exactly the rows of the contiguous
span between the two indices (rows outside the span keep their previous
association). -/
theorem handleRowSelect_range_spec (idCol : String) (data : List RRow)
    (prev : RSelection) (anchor rowId : String) (ha : anchor ≠ "")
    (hnd : (data.map (rowIdOf idCol)).Nodup) :
    ((∀ r ∈ data, rowIdOf idCol r ≠ rowId) →
      handleRowSelect "multiple" idCol data prev (some anchor) rowId true
        = (prev, some anchor)) ∧
    (anchor ∉ data.map (rowIdOf idCol) →
      (handleRowSelect "multiple" idCol data prev (some anchor) rowId true).1 = prev) ∧
    (∀ i j : Nat, jsIndexOf (data.map (rowIdOf idCol)) anchor = (i : Int) →
      jsIndexOf (data.map (rowIdOf idCol)) rowId = (j : Int) →
      ∀ k, mapGet (handleRowSelect "multiple" idCol data prev (some anchor) rowId true).1 k =
        (((data.drop (min i j)).take (max i j + 1 - min i j)).find?
            (fun r => rowIdOf idCol r = k)).or (mapGet prev k)) := by
  have htruthy : lastTruthy (some anchor) = true := by
    simp [lastTruthy, ha]
  refine ⟨?_, ?_, ?_⟩
  · intro h
    apply handleRowSelect_of_find_none
    rw [List.find?_eq_none]
    intro r hr
    simpa using h r hr
  · intro hmem
    cases hfind : data.find? (fun row => rowIdOf idCol row = rowId) with
    | none =>
      rw [handleRowSelect_of_find_none _ _ _ _ _ _ _ hfind]
    | some rowData =>
      simp only [handleRowSelect, hfind]
      rw [if_neg (by decide), if_pos ⟨trivial, htruthy⟩]
      simp only [Option.getD]
      rw [jsIndexOf_of_not_mem _ _ hmem]
      rw [if_neg (by omega)]
  · intro i j hi hj k
    cases hfind : data.find? (fun row => rowIdOf idCol row = rowId) with
    | none =>
      exfalso
      have hmem := mem_of_jsIndexOf_eq_ofNat _ _ _ hj
      obtain ⟨r, hr, hfr⟩ := List.mem_map.mp hmem
      have := List.find?_eq_none.mp hfind r hr
      simp [hfr] at this
    | some rowData =>
      simp only [handleRowSelect, hfind]
      rw [if_neg (by decide), if_pos ⟨trivial, htruthy⟩]
      simp only [Option.getD]
      rw [hi, hj]
      rw [if_pos ⟨by omega, by omega⟩]
      have hlo : (min (i : Int) (j : Int)).toNat = min i j := by
        rw [← Nat.cast_min, Int.toNat_natCast]
      have hhi : (max (i : Int) (j : Int)).toNat = max i j := by
        rw [← Nat.cast_max, Int.toNat_natCast]
      rw [hlo, hhi]
      show mapGet ((((data.drop (min i j)).take (max i j + 1 - min i j))).foldl
          (fun acc row => mapSet acc (rowIdOf idCol row) row) prev) k = _
      exact mapGet_foldl_set_eq_find ((data.drop (min i j)).take (max i j + 1 - min i j))
        (rowIdOf idCol) prev k
        (List.Nodup.sublist
          (List.Sublist.map (rowIdOf idCol)
            ((List.take_sublist (max i j + 1 - min i j) (data.drop (min i j))).trans
              (List.drop_sublist (min i j) data)))
          hnd)

/-- Witness for `handleRowSelect_range_spec`: shift-clicking from
anchor "a" (index 0) to target "c" (index 2) over three visible rows
selects the middle row "b" as part of the span. -/
theorem handleRowSelect_range_spec_witness :
    mapGet (handleRowSelect "multiple" "id" [rowA, rowB, rowC] [] (some "a") "c" true).1 "b"
      = some rowB := by
  have h := (handleRowSelect_range_spec "id" [rowA, rowB, rowC] [] "a" "c"
    (by decide) (by decide)).2.2 0 2 (by decide) (by decide) "b"
  rw [h]
  rfl

/-- C4: toggle-all over a non-empty visible page with pairwise distinct
visible ids.  If every visible id is selected, exactly the visible ids
are removed; otherwise every visible row is added (id mapped to its
row); entries outside the visible page are untouched in both cases. -/
theorem handleBulkSelect_spec (idCol : String) (visibleData : List RRow)
    (prev : RSelection) (hne : visibleData ≠ [])
    (hnd : (visibleData.map (rowIdOf idCol)).Nodup) :
    ((∀ i ∈ visibleData.map (rowIdOf idCol), mapHas prev i = true) →
      ∀ k, mapGet (handleBulkSelect idCol visibleData prev) k =
        if k ∈ visibleData.map (rowIdOf idCol) then none else mapGet prev k) ∧
    ((¬∀ i ∈ visibleData.map (rowIdOf idCol), mapHas prev i = true) →
      (∀ r ∈ visibleData,
        mapGet (handleBulkSelect idCol visibleData prev) (rowIdOf idCol r) = some r) ∧
      (∀ k, k ∉ visibleData.map (rowIdOf idCol) →
        mapGet (handleBulkSelect idCol visibleData prev) k = mapGet prev k)) := by
  have hlen : (visibleData.map (rowIdOf idCol)).length > 0 := by
    simpa [List.length_pos] using hne
  constructor
  · intro hall k
    unfold handleBulkSelect
    rw [if_pos ⟨hlen, hall⟩]
    exact mapGet_foldl_mapDelete _ prev k
  · intro hnot
    have hbranch : handleBulkSelect idCol visibleData prev =
        visibleData.foldl (fun acc row => mapSet acc (rowIdOf idCol row) row) prev := by
      unfold handleBulkSelect
      rw [if_neg (fun hc => hnot hc.2)]
    constructor
    · intro r hr
      rw [hbranch]
      rw [mapGet_foldl_set_eq_find visibleData (rowIdOf idCol) prev (rowIdOf idCol r) hnd]
      cases hfind : visibleData.find? (fun r' => rowIdOf idCol r' = rowIdOf idCol r) with
      | none =>
        exfalso
        have := List.find?_eq_none.mp hfind r hr
        simp at this
      | some r' =>
        have hmem' := List.mem_of_find?_eq_some hfind
        have heq : rowIdOf idCol r' = rowIdOf idCol r := by
          have := List.find?_some hfind
          simpa using this
        have : r' = r :=
          List.inj_on_of_nodup_map hnd hmem' hr heq
        rw [this]
        rfl
    · intro k hk
      rw [hbranch]
      exact mapGet_foldl_set_not_mem visibleData (rowIdOf idCol) prev k hk

/-- Witness for `handleBulkSelect_spec`: with only row "a" selected,
toggle-all over the page [rowA, rowB] selects rowB as well. -/
theorem handleBulkSelect_spec_witness :
    mapGet (handleBulkSelect "id" [rowA, rowB] [("a", rowA)]) (rowIdOf "id" rowB)
      = some rowB :=
  ((handleBulkSelect_spec "id" [rowA, rowB] [("a", rowA)]
      (List.cons_ne_nil _ _) (by decide)).2 (by decide)).1 rowB
    (List.mem_cons_of_mem rowA (List.mem_cons_self rowB []))

/-- C5 counterexample: with rowA already selected and the visible page
[rowA, rowB], the first toggle-all selects both rows and the second
removes both, ending empty instead of back at the original selection —
double toggle-all is not the identity. -/
theorem handleBulkSelect_double_counterexample :
    handleBulkSelect "id" [rowA, rowB]
        (handleBulkSelect "id" [rowA, rowB] [("a", rowA)]) = [] ∧
    ([("a", rowA)] : RSelection) ≠ [] := by
  exact ⟨rfl, List.cons_ne_nil _ _⟩

/-- C5 (amended): applying toggle-all twice with the same visible rows
returns the selection to its original state provided no visible row id
was selected initially (in particular this covers the
select-then-deselect reading of the claim); with partial overlap the
round trip can lose entries, as the counterexample shows. -/
theorem handleBulkSelect_double_of_disjoint (idCol : String) (visibleData : List RRow)
    (prev : RSelection)
    (h : ∀ i ∈ visibleData.map (rowIdOf idCol), mapHas prev i = false) :
    handleBulkSelect idCol visibleData (handleBulkSelect idCol visibleData prev) = prev := by
  by_cases hne : visibleData = []
  · subst hne
    rfl
  · have hrows : ∀ r ∈ visibleData, mapHas prev (rowIdOf idCol r) = false := by
      intro r hr
      exact h (rowIdOf idCol r) (List.mem_map_of_mem (rowIdOf idCol) hr)
    obtain ⟨r₀, hr₀⟩ := List.exists_mem_of_ne_nil visibleData hne
    have hinner : handleBulkSelect idCol visibleData prev =
        visibleData.foldl (fun acc row => mapSet acc (rowIdOf idCol row) row) prev := by
      unfold handleBulkSelect
      rw [if_neg]
      intro hc
      have := hc.2 (rowIdOf idCol r₀) (List.mem_map_of_mem (rowIdOf idCol) hr₀)
      rw [hrows r₀ hr₀] at this
      cases this
    obtain ⟨e', he', hkeys⟩ := foldl_mapSet_append visibleData (rowIdOf idCol) prev [] hrows
    rw [List.append_nil] at he'
    have hkeys' : ∀ p ∈ e', p.1 ∈ visibleData.map (rowIdOf idCol) := by
      intro p hp
      rcases hkeys p hp with h' | h'
      · simp at h'
      · exact h'
    have ht1 : handleBulkSelect idCol visibleData prev = prev ++ e' := by
      rw [hinner, he']
    have houter : handleBulkSelect idCol visibleData (prev ++ e') =
        (visibleData.map (rowIdOf idCol)).foldl mapDelete (prev ++ e') := by
      unfold handleBulkSelect
      rw [if_pos]
      constructor
      · simpa [List.length_pos] using hne
      · intro i hi
        obtain ⟨r, hr, hfr⟩ := List.mem_map.mp hi
        have := mapHas_foldl_set_of_mem visibleData (rowIdOf idCol) prev r hr
        rw [← he'] at *
        rw [← hfr]
        exact this
    rw [ht1, houter, foldl_mapDelete_eq_filter, List.filter_append]
    have hprev : prev.filter (fun p => decide (p.1 ∉ visibleData.map (rowIdOf idCol))) = prev := by
      rw [List.filter_eq_self]
      intro p hp
      simp only [decide_eq_true_eq]
      intro hmem
      have := h p.1 hmem
      rw [mapHas_of_mem prev p hp] at this
      cases this
    have hext : e'.filter (fun p => decide (p.1 ∉ visibleData.map (rowIdOf idCol))) = [] := by
      rw [List.filter_eq_nil_iff]
      intro p hp
      simp only [decide_eq_true_eq, not_not]
      exact hkeys' p hp
    rw [hprev, hext, List.append_nil]

/-- Witness for `handleBulkSelect_double_of_disjoint`: a selection
containing only the off-page row "c" survives two toggle-alls over the
page [rowA, rowB] unchanged. -/
theorem handleBulkSelect_double_of_disjoint_witness :
    handleBulkSelect "id" [rowA, rowB]
      (handleBulkSelect "id" [rowA, rowB] [("c", rowC)]) = [("c", rowC)] :=
  handleBulkSelect_double_of_disjoint "id" [rowA, rowB] [("c", rowC)] (by decide)

/-! ## Selection persistence (TableChart.tsx restore/persist effects) -/

/-- `has` distributes over appended maps. -/
theorem mapHas_append {α : Type} (m e : List (String × α)) (k : String) :
    mapHas (m ++ e) k = (mapHas m k || mapHas e k) := by
  induction m with
  | nil => simp [mapHas, mapGet]
  | cons p rest ih =>
    obtain ⟨k₀, v₀⟩ := p
    by_cases hk : k₀ = k
    · simp [mapHas, mapGet, hk]
    · simpa [mapHas, mapGet, hk] using ih

/-- Rebuilding a map by folding `set` from the left reproduces the
entry list when its keys are pairwise distinct and absent from the
accumulator. -/
theorem foldl_mapSet_entries {α : Type} (sel : List (String × α)) :
    ∀ m : List (String × α), (sel.map Prod.fst).Nodup →
    (∀ p ∈ sel, mapHas m p.1 = false) →
    sel.foldl (fun acc p => mapSet acc p.1 p.2) m = m ++ sel := by
  induction sel with
  | nil =>
    intro m _ _
    simp
  | cons p rest ih =>
    intro m hnd hdis
    obtain ⟨k, v⟩ := p
    simp only [List.map_cons, List.nodup_cons] at hnd
    simp only [List.foldl_cons]
    rw [mapSet_append_of_not_has m k v (hdis (k, v) (List.mem_cons_self _ _))]
    rw [ih (m ++ [(k, v)]) hnd.2 ?_]
    · simp
    · intro q hq
      rw [mapHas_append]
      have h1 : mapHas m q.1 = false := hdis q (List.mem_cons_of_mem _ hq)
      have h2 : mapHas [(k, v)] q.1 = false := by
        have hqk : q.1 ≠ k := by
          intro he
          exact hnd.1 (he ▸ List.mem_map_of_mem Prod.fst hq)
        simp [mapHas, mapGet, Ne.symm hqk]
      rw [h1, h2]
      rfl

/-- One persisted entry: `[id, row]` as produced by
`Array.from(selectedRows.entries())` under `JSON.stringify`. -/
def encodeEntry (p : String × RRow) : Json :=
  Json.arr [Json.str p.1, Json.obj p.2]

/-- The serialized selection: a JSON array of `[id, row]` pairs. -/
def encodeSelection (sel : RSelection) : Json :=
  Json.arr (sel.map encodeEntry)

/-- Decoding one `[id, row]` pair; anything of another shape fails. -/
def decodeEntry : Json → Option (String × RRow)
  | Json.arr [Json.str k, Json.obj r] => some (k, r)
  | _ => none

def decodeEntries : List Json → Option (List (String × RRow))
  | [] => some []
  | it :: rest =>
    match decodeEntry it, decodeEntries rest with
    | some p, some ps => some (p :: ps)
    | _, _ => none

/-- `JSON.parse` result interpreted as a list of map entries. -/
def decodeSelection : Json → Option (List (String × RRow))
  | Json.arr items => decodeEntries items
  | _ => none

/-- The persist effect (TableChart.tsx lines 548-559): with retention
on, the serialized selection is written to the chart-scoped storage
slot; with retention off, the slot is removed. -/
def persistSelectionEffect (retain : Bool) (sel : RSelection) (_storage : Option Json) :
    Option Json :=
  if retain then some (encodeSelection sel) else none

/-- The restore-on-first-mount effect (TableChart.tsx lines 438-461):
with retention on, a stored value is parsed and loaded into a fresh
`Map` (parse failures are caught, leaving the empty initial selection);
with retention off, the slot is removed and the selection stays empty.
Returns the resulting selection and the storage slot afterwards. -/
def restoreSelectionEffect : Bool → Option Json → RSelection × Option Json
  | true, some s =>
    (match decodeSelection s with
     | some pairs => (pairs.foldl (fun acc p => mapSet acc p.1 p.2) [], some s)
     | none => ([], some s))
  | true, none => ([], none)
  | false, _ => ([], none)

/-- Decoding inverts encoding entrywise. -/
theorem decodeEntries_encode (sel : RSelection) :
    decodeEntries (sel.map encodeEntry) = some sel := by
  induction sel with
  | nil => rfl
  | cons p rest ih =>
    obtain ⟨k, v⟩ := p
    simp only [List.map_cons]
    unfold decodeEntries
    rw [ih]
    rfl

/-- C6: with retention enabled, persisting a selection (with pairwise
distinct ids, as any `Map` has) and restoring it reproduces exactly the
same id-to-row entry list; with retention disabled, restoring yields
the empty selection and clears the slot, and persisting clears the
slot. -/
theorem selection_persistence_roundtrip (sel : RSelection) (storage stored : Option Json)
    (hnd : (sel.map Prod.fst).Nodup) :
    (restoreSelectionEffect true (persistSelectionEffect true sel storage)).1 = sel ∧
    restoreSelectionEffect false stored = ([], none) ∧
    persistSelectionEffect false sel stored = none := by
  refine ⟨?_, rfl, rfl⟩
  have hdec : decodeSelection (encodeSelection sel) = some sel := by
    unfold encodeSelection decodeSelection
    exact decodeEntries_encode sel
  show (restoreSelectionEffect true (some (encodeSelection sel))).1 = sel
  simp only [restoreSelectionEffect]
  rw [hdec]
  show sel.foldl (fun acc p => mapSet acc p.1 p.2) [] = sel
  rw [foldl_mapSet_entries sel [] hnd (fun p _ => rfl), List.nil_append]

/-- Witness for `selection_persistence_roundtrip` at a concrete
selection. -/
theorem selection_persistence_roundtrip_witness :
    (restoreSelectionEffect true (persistSelectionEffect true [("a", rowA)] none)).1
      = [("a", rowA)] :=
  (selection_persistence_roundtrip [("a", rowA)] none none (by decide)).1

/-! ## Action visibility (ActionCell.tsx, `evaluateVisibilityCondition`) -/

/-- Primitive JavaScript values occurring in rows and condition values
(numbers restricted to integers). -/
inductive Prim where
  | undef : Prim
  | null : Prim
  | bool (b : Bool) : Prim
  | num (n : Int) : Prim
  | str (s : String) : Prim
deriving DecidableEq

/-- Digit-string value, `none` when empty or containing a non-digit. -/
def digitsVal (cs : List Char) : Option Nat :=
  if cs = [] then none
  else if cs.all (fun c => c.isDigit) then
    some (cs.foldl (fun acc c => acc * 10 + (c.toNat - 48)) 0)
  else none

/-- `ToNumber` on strings, restricted to optionally signed decimal
integer literals (other numeric syntaxes are outside the integer
model): whitespace is trimmed, the empty string is 0, anything
non-numeric is NaN, modelled as `none`. -/
def strToNumber (s : String) : Option Int :=
  let t := s.trim
  if t = "" then some 0
  else
    match t.data with
    | '-' :: rest => (digitsVal rest).map (fun n => -(n : Int))
    | '+' :: rest => (digitsVal rest).map (fun n => (n : Int))
    | cs => (digitsVal cs).map (fun n => (n : Int))

/-- ECMAScript `ToNumber` on primitives (`none` is NaN). -/
def toNumber : Prim → Option Int
  | Prim.undef => none
  | Prim.null => some 0
  | Prim.bool b => some (if b then 1 else 0)
  | Prim.num n => some n
  | Prim.str s => strToNumber s

/-- ECMAScript loose equality `==` on primitives: null and undefined
equate with each other only; string-string compares as strings; other
mixed cases compare numerically after `ToNumber`, NaN equal to
nothing. -/
def looseEq (x y : Prim) : Bool :=
  match x, y with
  | Prim.undef, Prim.undef => true
  | Prim.undef, Prim.null => true
  | Prim.null, Prim.undef => true
  | Prim.null, Prim.null => true
  | Prim.undef, _ => false
  | _, Prim.undef => false
  | Prim.null, _ => false
  | _, Prim.null => false
  | Prim.str a, Prim.str b => a == b
  | x, y =>
    match toNumber x, toNumber y with
    | some a, some b => a == b
    | _, _ => false

/-- ECMAScript abstract relational comparison `x < y`: string-string
compares lexicographically, otherwise numeric after `ToNumber`;
`none` is the undefined result (a NaN operand). -/
def jsCompareLt (x y : Prim) : Option Bool :=
  match x, y with
  | Prim.str a, Prim.str b => some (decide (a < b))
  | _, _ =>
    match toNumber x, toNumber y with
    | some a, some b => some (decide (a < b))
    | _, _ => none

def jsLt (x y : Prim) : Bool := (jsCompareLt x y).getD false

def jsGt (x y : Prim) : Bool := (jsCompareLt y x).getD false

def jsLe (x y : Prim) : Bool :=
  match jsCompareLt y x with
  | some r => !r
  | none => false

def jsGe (x y : Prim) : Bool :=
  match jsCompareLt x y with
  | some r => !r
  | none => false

/-- JavaScript `String()` of a primitive. -/
def primToString : Prim → String
  | Prim.undef => "undefined"
  | Prim.null => "null"
  | Prim.bool b => if b then "true" else "false"
  | Prim.num n => toString n
  | Prim.str s => s

/-- `condition.column`: either a single column name or an array. -/
inductive ColumnSpec where
  | single (s : String) : ColumnSpec
  | multi (l : List String) : ColumnSpec

/-- A visibility condition `{ column, operator, value }` with possibly
absent column and operator. -/
structure VisCondition where
  column : Option ColumnSpec
  operator : Option String
  value : Prim

/-- JS truthiness of `condition.column`: absent or the empty string is
falsy; an array (even empty) is truthy. -/
def columnTruthy : Option ColumnSpec → Bool
  | none => false
  | some (ColumnSpec.single s) => s != ""
  | some (ColumnSpec.multi _) => true

/-- JS truthiness of `condition.operator`. -/
def operatorTruthy : Option String → Bool
  | none => false
  | some s => s != ""

/-- `Array.isArray(column) ? column[0] : column`; indexing an empty
array gives `undefined`, which coerces to the property key
`"undefined"`. -/
def colKeyOf : ColumnSpec → String
  | ColumnSpec.single s => s
  | ColumnSpec.multi l => l.headD "undefined"

/-- `evaluateVisibilityCondition` (ActionCell.tsx lines 15-59),
translated switch case by switch case; a missing row property reads as
`undefined`. -/
def evaluateVisibilityCondition (condition : Option VisCondition)
    (row : List (String × Prim)) : Bool :=
  match condition with
  | none => true
  | some cond =>
    match cond.column, cond.operator with
    | some col, some op =>
      if columnTruthy (some col) = false ∨ operatorTruthy (some op) = false then true
      else
        match op with
        | "==" => looseEq ((mapGet row (colKeyOf col)).getD Prim.undef) cond.value
        | "!=" => !looseEq ((mapGet row (colKeyOf col)).getD Prim.undef) cond.value
        | ">" => jsGt ((mapGet row (colKeyOf col)).getD Prim.undef) cond.value
        | "<" => jsLt ((mapGet row (colKeyOf col)).getD Prim.undef) cond.value
        | ">=" => jsGe ((mapGet row (colKeyOf col)).getD Prim.undef) cond.value
        | "<=" => jsLe ((mapGet row (colKeyOf col)).getD Prim.undef) cond.value
        | "IS NULL" =>
          decide ((mapGet row (colKeyOf col)).getD Prim.undef = Prim.null ∨
            (mapGet row (colKeyOf col)).getD Prim.undef = Prim.undef)
        | "IS NOT NULL" =>
          decide ((mapGet row (colKeyOf col)).getD Prim.undef ≠ Prim.null ∧
            (mapGet row (colKeyOf col)).getD Prim.undef ≠ Prim.undef)
        | "IN" =>
          (((primToString cond.value).splitOn ",").map (fun s => s.trim)).contains
            (primToString ((mapGet row (colKeyOf col)).getD Prim.undef))
        | "NOT IN" =>
          !((((primToString cond.value).splitOn ",").map (fun s => s.trim)).contains
            (primToString ((mapGet row (colKeyOf col)).getD Prim.undef)))
        | _ => true
    | _, _ => true

/-- The claimed behavior, written from the specification text: a
condition that is absent or missing its column or operator is visible;
otherwise the row value at the column is compared per operator —
loose equality and its negation, the four orderings, null checks,
comma-separated trimmed set membership and its negation — and any
unknown operator fails open to visible. -/
def visibilitySpec (condition : Option VisCondition)
    (row : List (String × Prim)) : Bool :=
  match condition with
  | none => true
  | some cond =>
    match cond.column, cond.operator with
    | some col, some op =>
      if columnTruthy (some col) = false ∨ operatorTruthy (some op) = false then true
      else
        if op = "==" then looseEq ((mapGet row (colKeyOf col)).getD Prim.undef) cond.value
        else if op = "!=" then !looseEq ((mapGet row (colKeyOf col)).getD Prim.undef) cond.value
        else if op = ">" then jsGt ((mapGet row (colKeyOf col)).getD Prim.undef) cond.value
        else if op = "<" then jsLt ((mapGet row (colKeyOf col)).getD Prim.undef) cond.value
        else if op = ">=" then jsGe ((mapGet row (colKeyOf col)).getD Prim.undef) cond.value
        else if op = "<=" then jsLe ((mapGet row (colKeyOf col)).getD Prim.undef) cond.value
        else if op = "IS NULL" then
          decide ((mapGet row (colKeyOf col)).getD Prim.undef = Prim.null ∨
            (mapGet row (colKeyOf col)).getD Prim.undef = Prim.undef)
        else if op = "IS NOT NULL" then
          !(decide ((mapGet row (colKeyOf col)).getD Prim.undef = Prim.null ∨
            (mapGet row (colKeyOf col)).getD Prim.undef = Prim.undef))
        else if op = "IN" then
          (((primToString cond.value).splitOn ",").map (fun s => s.trim)).contains
            (primToString ((mapGet row (colKeyOf col)).getD Prim.undef))
        else if op = "NOT IN" then
          !((((primToString cond.value).splitOn ",").map (fun s => s.trim)).contains
            (primToString ((mapGet row (colKeyOf col)).getD Prim.undef)))
        else true
    | _, _ => true

/-- C7: the evaluator agrees with the specification's operator table on
every condition and every row. -/
theorem evaluateVisibilityCondition_matches_spec
    (condition : Option VisCondition) (row : List (String × Prim)) :
    evaluateVisibilityCondition condition row = visibilitySpec condition row := by
  cases condition with
  | none => rfl
  | some cond =>
    obtain ⟨ocol, oop, v⟩ := cond
    cases ocol with
    | none => rfl
    | some col =>
      cases oop with
      | none => rfl
      | some op =>
        simp only [evaluateVisibilityCondition, visibilitySpec]
        by_cases htr : columnTruthy (some col) = false ∨ operatorTruthy (some op) = false
        · rw [if_pos htr, if_pos htr]
        · rw [if_neg htr, if_neg htr]
          split <;>
            simp_all [decide_not, not_or, Bool.not_or, Bool.decide_and]

/-! ## Action list coercion (TableChart.tsx, `parseOrConvertToSet`) -/

/-- The possible runtime shapes of the `input` argument: a string, an
array, a `Set`, or anything else. -/
inductive CoercibleInput where
  | str (s : String) : CoercibleInput
  | arr (l : List Json) : CoercibleInput
  | set (l : List Json) : CoercibleInput
  | other : CoercibleInput

def isPrimitiveJson : Json → Bool
  | Json.arr _ => false
  | Json.obj _ => false
  | _ => true

/-- `new Set(list)` as an insertion-ordered list: primitive values are
deduplicated by value (SameValueZero); objects and arrays are compared
by reference, and distinct occurrences in a parsed array are distinct
references, so they are all kept. -/
def jsSetOfList (l : List Json) : List Json :=
  l.foldl (fun acc x =>
    if isPrimitiveJson x && acc.any (fun y => jsonBeq y x) then acc else acc ++ [x]) []

/-- `parseOrConvertToSet` (TableChart.tsx lines 403-422),
parameterized by the host `JSON.parse` (`none` models a thrown parse
error, which the source catches). -/
def parseOrConvertToSet (jsonParse : String → Option Json) : CoercibleInput → List Json
  | CoercibleInput.str s =>
    match jsonParse s with
    | some (Json.arr l) => jsSetOfList l
    | some _ => []
    | none => []
  | CoercibleInput.arr l => jsSetOfList l
  | CoercibleInput.set l => l
  | CoercibleInput.other => []

/-- Elements produced by the set-building fold come from the
accumulator or the processed list. -/
theorem foldl_setAdd_subset (l : List Json) :
    ∀ acc : List Json, ∀ x ∈ l.foldl (fun acc x =>
        if isPrimitiveJson x && acc.any (fun y => jsonBeq y x) then acc
        else acc ++ [x]) acc, x ∈ acc ∨ x ∈ l := by
  induction l with
  | nil =>
    intro acc x hx
    exact Or.inl hx
  | cons a rest ih =>
    intro acc x hx
    simp only [List.foldl_cons] at hx
    rcases ih _ x hx with h | h
    · by_cases hc : (isPrimitiveJson a && acc.any (fun y => jsonBeq y a)) = true
      · rw [if_pos hc] at h
        exact Or.inl h
      · rw [if_neg hc] at h
        rcases List.mem_append.mp h with h' | h'
        · exact Or.inl h'
        · simp only [List.mem_singleton] at h'
          refine Or.inr ?_
          rw [h']
          exact List.mem_cons_self a rest
    · exact Or.inr (List.mem_cons_of_mem a h)

/-- The set built from a list only contains elements of the list. -/
theorem jsSetOfList_subset (l : List Json) :
    ∀ x ∈ jsSetOfList l, x ∈ l := by
  intro x hx
  rcases foldl_setAdd_subset l [] x hx with h | h
  · cases h
  · exact h

/-- C9: the coercion dispatch.  A string that fails to parse, or
parses to a non-array value, gives the empty set (the exception is
caught, never propagated); a string parsing to an array gives the set
of its elements; an array gives the set of its elements; a `Set` is
returned as-is; any other input gives the empty set. -/
theorem parseOrConvertToSet_spec (jsonParse : String → Option Json) :
    (∀ s, jsonParse s = none →
      parseOrConvertToSet jsonParse (CoercibleInput.str s) = []) ∧
    (∀ s j, jsonParse s = some j → (∀ l, j ≠ Json.arr l) →
      parseOrConvertToSet jsonParse (CoercibleInput.str s) = []) ∧
    (∀ s l, jsonParse s = some (Json.arr l) →
      parseOrConvertToSet jsonParse (CoercibleInput.str s) = jsSetOfList l) ∧
    (∀ l, parseOrConvertToSet jsonParse (CoercibleInput.arr l) = jsSetOfList l) ∧
    (∀ l, parseOrConvertToSet jsonParse (CoercibleInput.set l) = l) ∧
    parseOrConvertToSet jsonParse CoercibleInput.other = [] := by
  refine ⟨?_, ?_, ?_, fun l => rfl, fun l => rfl, rfl⟩
  · intro s hs
    simp [parseOrConvertToSet, hs]
  · intro s j hs hn
    cases j with
    | arr l => exact absurd rfl (hn l)
    | null => simp [parseOrConvertToSet, hs]
    | bool b => simp [parseOrConvertToSet, hs]
    | num n => simp [parseOrConvertToSet, hs]
    | str t => simp [parseOrConvertToSet, hs]
    | obj fs => simp [parseOrConvertToSet, hs]
  · intro s l hs
    simp [parseOrConvertToSet, hs]

/-- A concrete `JSON.parse` fragment for the witness. -/
def c9Parse : String → Option Json := fun s =>
  if s = "[1,1,2]" then some (Json.arr [Json.num 1, Json.num 1, Json.num 2]) else none

/-- Witness for `parseOrConvertToSet_spec`: a parsed array is
deduplicated into its element set, and a malformed string degrades to
the empty set. -/
theorem parseOrConvertToSet_spec_witness :
    parseOrConvertToSet c9Parse (CoercibleInput.str "[1,1,2]")
      = [Json.num 1, Json.num 2] ∧
    parseOrConvertToSet c9Parse (CoercibleInput.str "nonsense") = [] := by
  constructor
  · rw [(parseOrConvertToSet_spec c9Parse).2.2.1 "[1,1,2]"
      [Json.num 1, Json.num 1, Json.num 2] rfl]
    rfl
  · exact (parseOrConvertToSet_spec c9Parse).1 "nonsense" rfl
